import Mathlib

/-
Verification of the NRG risk evaluation engine (src/risk_engine.py,
src/storage.py, src/connectors/base.py) against its specification.

Modelling conventions:
- Python floats are embedded as rationals (ℚ).  The single value that can
  be `float('inf')` in the source (a thesis's utilization, risk_engine.py
  line 280) is embedded as `WithTop ℚ`, whose top element models infinity
  and compares above every rational exactly as the float infinity does.
- Python float division raises `ZeroDivisionError` on a zero divisor; the
  one division whose divisor can be zero (risk_engine.py line 293) is
  therefore embedded as a fallible step returning `ComputeError.zeroDivision`.
- `re.match` with the pattern wrapped as caret-pattern-dollar and
  IGNORECASE (risk_engine.py line 170) is embedded as an abstract matcher
  argument of type `RegexMatcher`; `none` models a pattern that fails to
  compile (`re.error`), `some b` models a successful compilation where `b`
  tells whether the symbol matched.
- The SQLite tables of storage.py are embedded as lists of rows kept in
  insertion order; every write in the source is an append-only INSERT.
- `datetime.now()` is embedded as an explicit timestamp argument.
- Python's `list.sort(key=..., reverse=True)` is a stable sort placing
  larger keys first; it is embedded as `List.insertionSort` with the
  reflexive descending-key relation, which computes the same (unique)
  stable reordering.
-/

namespace NRG

/-- Instrument kinds, from connectors/base.py `InstrumentType`. -/
inductive InstrumentType
  | STOCK
  | ETF
  | OPTION
  | CASH
  | OTHER
deriving DecidableEq

/-- String value of an instrument kind (`.value` on the Python enum). -/
def InstrumentType.value : InstrumentType → String
  | .STOCK => "STOCK"
  | .ETF => "ETF"
  | .OPTION => "OPTION"
  | .CASH => "CASH"
  | .OTHER => "OTHER"

/-- Risk modes, from risk_engine.py `RiskMode`. -/
inductive RiskMode
  | NORMAL
  | HALF
  | MIN
deriving DecidableEq

/-- String value of a risk mode (`.value` on the Python enum). -/
def RiskMode.value : RiskMode → String
  | .NORMAL => "NORMAL"
  | .HALF => "HALF"
  | .MIN => "MIN"

/-- Inverse of `RiskMode.value`: models the Python `RiskMode(s)` enum
constructor, which raises `ValueError` (here: `none`) on any other string. -/
def parse_risk_mode (s : String) : Option RiskMode :=
  if s = "NORMAL" then some RiskMode.NORMAL
  else if s = "HALF" then some RiskMode.HALF
  else if s = "MIN" then some RiskMode.MIN
  else none

/-- Thesis lifecycle status, from risk_engine.py `ThesisStatus`. -/
inductive ThesisStatus
  | ACTIVE
  | WATCH
  | BROKEN
deriving DecidableEq

/-- String value of a thesis status (`.value` on the Python enum). -/
def ThesisStatus.value : ThesisStatus → String
  | .ACTIVE => "ACTIVE"
  | .WATCH => "WATCH"
  | .BROKEN => "BROKEN"

/-- Inverse of `ThesisStatus.value`: models the Python `ThesisStatus(s)`
enum constructor, which raises `ValueError` (here: `none`) otherwise. -/
def parse_thesis_status (s : String) : Option ThesisStatus :=
  if s = "ACTIVE" then some ThesisStatus.ACTIVE
  else if s = "WATCH" then some ThesisStatus.WATCH
  else if s = "BROKEN" then some ThesisStatus.BROKEN
  else none

/-- Normalized position schema, from connectors/base.py `Position`. -/
structure Position where
  broker : String
  account_id : String
  symbol : String
  instrument_type : InstrumentType
  qty : ℚ
  multiplier : ℚ
  price : ℚ
  mv : ℚ
  currency : String := "USD"
  thesis : String := "_UNMAPPED"
  notes : Option String := none
deriving DecidableEq

/-- Account data from a broker, from connectors/base.py `AccountData`. -/
structure AccountData where
  broker : String
  account_id : String
  equity : ℚ
  cash : ℚ
  positions : List Position
  status : String := "OK"
  error_message : Option String := none
deriving DecidableEq

/-- Configuration for a thesis, from risk_engine.py `ThesisConfig`. -/
structure ThesisConfig where
  name : String
  stress_pct : ℚ
  budget_pct : ℚ
  status : ThesisStatus
  falsifier : String
  time_window_end : Option String := none
deriving DecidableEq

/-- A resolved per-thesis action.  The source stores `None`, the string
`"EXIT"`, or the formatted string `"REDUCE $<amount>"`; the constructor
argument carries the amount that the source formats into the string. -/
inductive ThesisAction
  | EXIT
  | REDUCE (amount : ℚ)
deriving DecidableEq

/-- Computed risk metrics for a thesis, from risk_engine.py `ThesisResult`. -/
structure ThesisResult where
  name : String
  mv : ℚ
  stress_pct : ℚ
  budget_pct : ℚ
  worst_loss : ℚ
  budget_dollars : ℚ
  utilization : WithTop ℚ
  action : Option ThesisAction
  reduce_amount : ℚ
  target_mv : ℚ
  status : ThesisStatus
  falsifier : String
  positions : List Position
deriving DecidableEq

/-- One entry of the free-text action log of a run.  Each constructor
carries the data the source formats into the corresponding f-string. -/
inductive LogEntry
  | modeChange (old_mode new_mode : RiskMode)
  | modeScaled (mode : RiskMode) (scale : ℚ)
  | shortOptionWarning (thesis : String)
  | exitBroken (thesis : String)
  | reduceAction (thesis : String) (amount : ℚ) (utilization : WithTop ℚ)
deriving DecidableEq

/-- Complete risk engine computation result, from risk_engine.py `RiskResult`. -/
structure RiskResult where
  timestamp : ℕ
  equity : ℚ
  peak : ℚ
  drawdown : ℚ
  mode : RiskMode
  risk_scale : ℚ
  thesis_results : List ThesisResult
  positions : List Position
  status : String
  broker_statuses : List (String × String)
  actions : List LogEntry
  mode_changed : Bool
  old_mode : Option RiskMode
deriving DecidableEq

/-- Row of the equity_history table, from storage.py `EquitySnapshot`. -/
structure EquitySnapshot where
  timestamp : ℕ
  equity : ℚ
  peak : ℚ
  drawdown : ℚ
  mode : String
  risk_scale : ℚ
  status : String
deriving DecidableEq

/-- Row of the mode_history table, from storage.py `save_mode_change`. -/
structure ModeChangeRecord where
  timestamp : ℕ
  old_mode : Option String
  new_mode : String
  equity : ℚ
  drawdown : ℚ
deriving DecidableEq

/-- Row of the thesis_metrics table, from storage.py `ThesisMetric`. -/
structure ThesisMetric where
  timestamp : ℕ
  thesis : String
  mv : ℚ
  stress_pct : ℚ
  budget_pct : ℚ
  worst_loss : ℚ
  budget_dollars : ℚ
  utilization : WithTop ℚ
  action : Option ThesisAction
  status : String
deriving DecidableEq

/-- Row of the positions table, from storage.py `PositionRecord`. -/
structure PositionRecord where
  timestamp : ℕ
  broker : String
  account_id : String
  symbol : String
  instrument_type : String
  qty : ℚ
  multiplier : ℚ
  price : ℚ
  mv : ℚ
  currency : String
  thesis : String
  notes : Option String
deriving DecidableEq

/-- The persisted database state: the four tables written by the engine,
each a list of rows in insertion order (every write is an INSERT). -/
structure Storage where
  equity_history : List EquitySnapshot
  mode_history : List ModeChangeRecord
  thesis_metrics : List ThesisMetric
  positions : List PositionRecord
deriving DecidableEq

/-- Maximum of the peak column over equity_history rows; SQL MAX over an
empty table is NULL, which storage.py `get_peak` turns into 0.0 (a stored
peak of exactly 0.0 is also falsy in Python and maps to 0.0, the same
value). -/
def peak_of_rows (rows : List EquitySnapshot) : ℚ :=
  match rows.map (fun row => row.peak) with
  | [] => 0
  | p :: ps => ps.foldl max p

/-- Historical peak equity, from storage.py `get_peak`. -/
def get_peak (s : Storage) : ℚ :=
  peak_of_rows s.equity_history

/-- Most recent mode, from storage.py `get_last_mode` (`SELECT mode ...
ORDER BY timestamp DESC LIMIT 1`); rows are appended in timestamp order,
so this is the last row's mode. -/
def get_last_mode (s : Storage) : Option String :=
  (s.equity_history.getLast?).map (fun row => row.mode)

/-- Append a mode change row, from storage.py `save_mode_change`. -/
def save_mode_change (s : Storage) (timestamp : ℕ) (old_mode : Option String)
    (new_mode : String) (equity drawdown : ℚ) : Storage :=
  { s with mode_history :=
      s.mode_history ++ [⟨timestamp, old_mode, new_mode, equity, drawdown⟩] }

/-- Account-level configuration, from the account.yaml dict consumed by
risk_engine.py `_compute_mode`: the drawdown threshold fraction and the
per-mode risk scale map (embedded as an association list in load order). -/
structure AccountConfig where
  drawdown_x : ℚ
  risk_scale : List (String × ℚ)
deriving DecidableEq

/-- Drawdown-to-mode classification, from risk_engine.py `_compute_mode`. -/
def compute_mode (cfg : AccountConfig) (drawdown : ℚ) : RiskMode × ℚ :=
  let x := cfg.drawdown_x
  let mode :=
    if drawdown > -x then RiskMode.NORMAL
    else if drawdown > -(2 * x) then RiskMode.HALF
    else RiskMode.MIN
  (mode, (cfg.risk_scale.lookup mode.value).getD 1)

/-- One symbol-to-thesis mapping rule, from the mapping.csv rows loaded by
risk_engine.py `_load_mappings`. -/
structure MappingRule where
  pattern : String
  thesis : String
  weight : ℚ
deriving DecidableEq

/-- Abstract model of the Python regex test in risk_engine.py line 170:
`re.match` of the pattern wrapped in caret/dollar anchors with IGNORECASE
against the symbol.  `none` models a pattern that fails to compile
(`re.error`); `some b` models successful compilation with match result `b`. -/
abbrev RegexMatcher := String → String → Option Bool

/-- Symbol-to-thesis resolution, from risk_engine.py
`_map_position_to_thesis`: first rule wins, exact match tried before the
regex test, uncompilable patterns silently skipped, sentinel fallback. -/
def map_position_to_thesis (matcher : RegexMatcher) :
    List MappingRule → String → String × ℚ
  | [], _ => ("_UNMAPPED", 1)
  | m :: rest, symbol =>
    if m.pattern = symbol then (m.thesis, m.weight)
    else
      match matcher m.pattern symbol with
      | some true => (m.thesis, m.weight)
      | _ => map_position_to_thesis matcher rest symbol

/-- Failures a `compute` run can raise: the ValueError for unusable equity
(risk_engine.py line 215), the ZeroDivisionError of the REDUCE-branch
division (line 293), and the ValueError of `RiskMode(old_mode_str)` on an
unrecognized persisted mode string (line 225). -/
inductive ComputeError
  | equityUnavailable
  | zeroDivision
  | invalidModeString
deriving DecidableEq

/-- Default configuration used for a thesis with no matching entry, from
risk_engine.py lines 258 to 266. -/
def default_thesis_config (name : String) : ThesisConfig :=
  { name := name
    stress_pct := 25 / 100
    budget_pct := 2 / 100
    status := ThesisStatus.ACTIVE
    falsifier := "N/A" }

/-- Thesis config lookup with fallback, from risk_engine.py lines 257 to 266
(`self.thesis_configs.get(thesis_name)` followed by the default). -/
def thesis_configs_lookup (configs : List (String × ThesisConfig))
    (name : String) : ThesisConfig :=
  (configs.lookup name).getD (default_thesis_config name)

/-- The short-option advisory of risk_engine.py lines 268 to 275: a warning
entry when any contributing position is a short option. -/
def short_option_warnings (thesis_name : String) (positions : List Position) :
    List LogEntry :=
  if positions.any (fun p =>
      p.instrument_type == InstrumentType.OPTION && decide (p.qty < 0)) then
    [LogEntry.shortOptionWarning thesis_name]
  else []

/-- Utilization from worst loss and dollar budget, from risk_engine.py
line 280: the ratio when the budget is positive, infinity otherwise. -/
def utilization_of (worst_loss budget_dollars : ℚ) : WithTop ℚ :=
  if 0 < budget_dollars then ((worst_loss / budget_dollars : ℚ) : WithTop ℚ)
  else ⊤

/-- Evaluation of one thesis, from the body of the per-thesis loop in
risk_engine.py `compute`, lines 268 to 312: short-option advisory, worst
loss, scaled dollar budget, utilization (infinity when the budget is not
positive), and action resolution.  The division of the REDUCE branch
raises ZeroDivisionError in Python when `stress_pct` is zero. -/
def evaluate_thesis (total_equity risk_scale : ℚ) (config : ThesisConfig)
    (thesis_name : String) (mv : ℚ) (positions : List Position) :
    Except ComputeError (ThesisResult × List LogEntry) :=
  let warnings := short_option_warnings thesis_name positions
  let worst_loss := |mv| * config.stress_pct
  let budget_dollars := total_equity * config.budget_pct * risk_scale
  let utilization := utilization_of worst_loss budget_dollars
  if config.status = ThesisStatus.BROKEN then
    Except.ok
      ({ name := thesis_name, mv := mv, stress_pct := config.stress_pct
         budget_pct := config.budget_pct, worst_loss := worst_loss
         budget_dollars := budget_dollars, utilization := utilization
         action := some ThesisAction.EXIT, reduce_amount := mv, target_mv := 0
         status := config.status, falsifier := config.falsifier
         positions := positions },
       warnings ++ [LogEntry.exitBroken thesis_name])
  else if (1 : WithTop ℚ) < utilization then
    if config.stress_pct = 0 then Except.error ComputeError.zeroDivision
    else
      let target_mv := budget_dollars / config.stress_pct
      let reduce_amount := mv - target_mv
      Except.ok
        ({ name := thesis_name, mv := mv, stress_pct := config.stress_pct
           budget_pct := config.budget_pct, worst_loss := worst_loss
           budget_dollars := budget_dollars, utilization := utilization
           action := some (ThesisAction.REDUCE reduce_amount)
           reduce_amount := reduce_amount, target_mv := target_mv
           status := config.status, falsifier := config.falsifier
           positions := positions },
         warnings ++ [LogEntry.reduceAction thesis_name reduce_amount utilization])
  else
    Except.ok
      ({ name := thesis_name, mv := mv, stress_pct := config.stress_pct
         budget_pct := config.budget_pct, worst_loss := worst_loss
         budget_dollars := budget_dollars, utilization := utilization
         action := none, reduce_amount := 0, target_mv := mv
         status := config.status, falsifier := config.falsifier
         positions := positions },
       warnings)

/-- One step of the by-thesis aggregation of risk_engine.py lines 242 to 251:
add a position to the running dict keyed by resolved thesis id, summing mv
and appending the position; a new key is appended at the end, matching
Python dict insertion order. -/
def add_position (acc : List (String × ℚ × List Position)) (p : Position) :
    List (String × ℚ × List Position) :=
  match acc with
  | [] => [(p.thesis, p.mv, [p])]
  | (name, mv, ps) :: rest =>
    if name = p.thesis then (name, mv + p.mv, ps ++ [p]) :: rest
    else (name, mv, ps) :: add_position rest p

/-- By-thesis aggregation of the flattened position list, from
risk_engine.py lines 242 to 251; keys appear in first-encounter order. -/
def aggregate_positions (positions : List Position) :
    List (String × ℚ × List Position) :=
  positions.foldl add_position []

/-- The per-thesis loop of risk_engine.py lines 256 to 312 over the
aggregated theses, collecting results and action log entries in order; a
ZeroDivisionError aborts the loop and propagates. -/
def evaluate_all (total_equity risk_scale : ℚ)
    (configs : List (String × ThesisConfig)) :
    List (String × ℚ × List Position) →
    Except ComputeError (List ThesisResult × List LogEntry)
  | [] => Except.ok ([], [])
  | (name, mv, ps) :: rest =>
    match evaluate_thesis total_equity risk_scale
        (thesis_configs_lookup configs name) name mv ps with
    | Except.error e => Except.error e
    | Except.ok (t, tlogs) =>
      match evaluate_all total_equity risk_scale configs rest with
      | Except.error e => Except.error e
      | Except.ok (ts, logs) => Except.ok (t :: ts, tlogs ++ logs)

/-- Descending-utilization ordering on thesis results: the sort key
relation of risk_engine.py line 315 (`key=lambda t: t.utilization,
reverse=True`). -/
def util_ge (a b : ThesisResult) : Prop :=
  b.utilization ≤ a.utilization

instance : DecidableRel util_ge := fun a b =>
  inferInstanceAs (Decidable (b.utilization ≤ a.utilization))

instance : IsTotal ThesisResult util_ge :=
  ⟨fun a b => le_total b.utilization a.utilization⟩

instance : IsTrans ThesisResult util_ge :=
  ⟨fun _ _ _ h1 h2 => le_trans h2 h1⟩

/-- The stable descending sort of risk_engine.py line 315
(`thesis_results.sort(key=lambda t: t.utilization, reverse=True)`);
Python's sort is stable, and insertion sort with a reflexive total
preorder computes the same unique stable reordering. -/
def sort_by_utilization (l : List ThesisResult) : List ThesisResult :=
  l.insertionSort util_ge

/-- Sum of equity over accounts with OK status, from risk_engine.py
lines 203 to 207. -/
def total_ok_equity (accounts : List AccountData) : ℚ :=
  ((accounts.filter fun a => a.status == "OK").map fun a => a.equity).sum

/-- Concatenated positions of accounts with OK status, from
risk_engine.py lines 203 to 207. -/
def ok_positions (accounts : List AccountData) : List Position :=
  ((accounts.filter fun a => a.status == "OK").map fun a => a.positions).flatten

/-- Overall run status, from risk_engine.py lines 201 to 209: OK unless
some account has a non-OK ingestion status. -/
def run_status (accounts : List AccountData) : String :=
  if accounts.all (fun a => a.status == "OK") then "OK" else "DEGRADED"

/-- Per-broker statuses keyed broker:account_id, from risk_engine.py
line 204 (dict embedded as a list in iteration order). -/
def broker_statuses_of (accounts : List AccountData) : List (String × String) :=
  accounts.map fun a => (a.broker ++ ":" ++ a.account_id, a.status)

/-- The configuration state a `RiskEngine` instance holds after loading:
account config, thesis configs (dict in load order), mapping rules in
load order. -/
structure RiskEngineState where
  account_config : AccountConfig
  thesis_configs : List (String × ThesisConfig)
  mappings : List MappingRule
deriving DecidableEq

/-- Thesis resolution applied to every position, from risk_engine.py
lines 236 to 239; only the thesis component of the resolver's result is
kept, the weight is discarded. -/
def map_all_positions (matcher : RegexMatcher) (mappings : List MappingRule)
    (positions : List Position) : List Position :=
  positions.map fun p =>
    { p with thesis := (map_position_to_thesis matcher mappings p.symbol).1 }

/-- Peak after this run, from risk_engine.py line 219. -/
def run_peak (storage : Storage) (accounts : List AccountData) : ℚ :=
  max (get_peak storage) (total_ok_equity accounts)

/-- Drawdown of this run, from risk_engine.py line 220. -/
def run_drawdown (storage : Storage) (accounts : List AccountData) : ℚ :=
  if 0 < run_peak storage accounts then
    (total_ok_equity accounts - run_peak storage accounts) / run_peak storage accounts
  else 0

/-- Mode and risk scale of this run, from risk_engine.py line 223. -/
def run_mode (eng : RiskEngineState) (storage : Storage)
    (accounts : List AccountData) : RiskMode × ℚ :=
  compute_mode eng.account_config (run_drawdown storage accounts)

/-- The Python expression `RiskMode(old_mode_str) if old_mode_str else
None` of risk_engine.py line 225: `None` and the empty string give no old
mode, an unrecognized string raises ValueError. -/
def parse_old_mode (s : Option String) : Except ComputeError (Option RiskMode) :=
  match s with
  | none => Except.ok none
  | some str =>
    if str = "" then Except.ok none
    else
      match parse_risk_mode str with
      | some m => Except.ok (some m)
      | none => Except.error ComputeError.invalidModeString

/-- Mode change detection, from risk_engine.py line 226. -/
def mode_changed_of (old_mode : Option RiskMode) (mode : RiskMode) : Bool :=
  match old_mode with
  | none => false
  | some m => decide (m ≠ mode)

/-- The mode related action log entries, from risk_engine.py lines 228
to 234: a mode change entry when the mode changed, then a scaled-risk
entry when the mode is not NORMAL. -/
def mode_change_log (old_mode : Option RiskMode) (mode : RiskMode)
    (risk_scale : ℚ) : List LogEntry :=
  (match old_mode with
   | some m => if m ≠ mode then [LogEntry.modeChange m mode] else []
   | none => []) ++
  (if mode ≠ RiskMode.NORMAL then [LogEntry.modeScaled mode risk_scale] else [])

/-- The mapped position list of a run (risk_engine.py lines 236 to 239). -/
def mapped_positions (eng : RiskEngineState) (matcher : RegexMatcher)
    (accounts : List AccountData) : List Position :=
  map_all_positions matcher eng.mappings (ok_positions accounts)

/-- The aggregated theses of a run (risk_engine.py lines 242 to 251). -/
def run_agg (eng : RiskEngineState) (matcher : RegexMatcher)
    (accounts : List AccountData) : List (String × ℚ × List Position) :=
  aggregate_positions (mapped_positions eng matcher accounts)

/-- Persistence of a finished run, from risk_engine.py `_save_results`:
append the equity snapshot, one thesis_metrics row per (sorted) thesis
result, and one positions row per mapped position. -/
def save_results (s : Storage) (timestamp : ℕ) (equity peak drawdown : ℚ)
    (mode : RiskMode) (risk_scale : ℚ) (status : String)
    (thesis_results : List ThesisResult) (positions : List Position) : Storage :=
  { s with
    equity_history := s.equity_history ++
      [⟨timestamp, equity, peak, drawdown, mode.value, risk_scale, status⟩]
    thesis_metrics := s.thesis_metrics ++ thesis_results.map (fun t =>
      ⟨timestamp, t.name, t.mv, t.stress_pct, t.budget_pct, t.worst_loss,
       t.budget_dollars, t.utilization, t.action, t.status.value⟩)
    positions := s.positions ++ positions.map (fun p =>
      ⟨timestamp, p.broker, p.account_id, p.symbol, p.instrument_type.value,
       p.qty, p.multiplier, p.price, p.mv, p.currency, p.thesis, p.notes⟩) }

/-- The full risk computation, from risk_engine.py `compute`.  Returns the
run outcome together with the storage state after the run; on a failure
the storage reflects exactly the writes issued before the exception was
raised (none for the equity check, possibly a mode change row for the
ZeroDivisionError of the thesis loop). -/
def compute (eng : RiskEngineState) (matcher : RegexMatcher) (storage : Storage)
    (timestamp : ℕ) (accounts_data : List AccountData) :
    Except ComputeError RiskResult × Storage :=
  if total_ok_equity accounts_data ≤ 0 then
    (Except.error ComputeError.equityUnavailable, storage)
  else
    match parse_old_mode (get_last_mode storage) with
    | Except.error e => (Except.error e, storage)
    | Except.ok old_mode =>
      let mode := (run_mode eng storage accounts_data).1
      let risk_scale := (run_mode eng storage accounts_data).2
      let storage1 :=
        if mode_changed_of old_mode mode then
          save_mode_change storage timestamp (get_last_mode storage) mode.value
            (total_ok_equity accounts_data) (run_drawdown storage accounts_data)
        else storage
      match evaluate_all (total_ok_equity accounts_data) risk_scale
          eng.thesis_configs (run_agg eng matcher accounts_data) with
      | Except.error e => (Except.error e, storage1)
      | Except.ok (results, thesis_logs) =>
        let sorted := sort_by_utilization results
        (Except.ok
          { timestamp := timestamp
            equity := total_ok_equity accounts_data
            peak := run_peak storage accounts_data
            drawdown := run_drawdown storage accounts_data
            mode := mode
            risk_scale := risk_scale
            thesis_results := sorted
            positions := mapped_positions eng matcher accounts_data
            status := run_status accounts_data
            broker_statuses := broker_statuses_of accounts_data
            actions := mode_change_log old_mode mode risk_scale ++ thesis_logs
            mode_changed := mode_changed_of old_mode mode
            old_mode := old_mode },
         save_results storage1 timestamp (total_ok_equity accounts_data)
           (run_peak storage accounts_data) (run_drawdown storage accounts_data)
           mode risk_scale (run_status accounts_data) sorted
           (mapped_positions eng matcher accounts_data))

/-- One raw entry of the theses mapping of thesis.yaml, as consumed by
risk_engine.py `_load_thesis_config`: each field optional, with the
defaults of lines 121 to 128 applied when absent. -/
structure RawThesisEntry where
  stress_pct : Option ℚ := none
  budget_pct : Option ℚ := none
  status : Option String := none
  falsifier : Option String := none
  time_window_end : Option String := none
deriving DecidableEq

/-- Thesis configuration loading, from risk_engine.py `_load_thesis_config`
(lines 111 to 140): entries are converted in order with per-field
defaults and no validation of the numeric fields; an invalid status
string raises inside the try block, so the entries built so far are kept
and the except handler adds the default `_UNMAPPED` config. -/
def load_thesis_config : List (String × RawThesisEntry) →
    List (String × ThesisConfig)
  | [] => []
  | (name, cfg) :: rest =>
    match parse_thesis_status (cfg.status.getD "ACTIVE") with
    | some st =>
      (name,
        { name := name
          stress_pct := cfg.stress_pct.getD (25 / 100)
          budget_pct := cfg.budget_pct.getD (5 / 100)
          status := st
          falsifier := cfg.falsifier.getD "N/A"
          time_window_end := cfg.time_window_end }) :: load_thesis_config rest
    | none =>
      [("_UNMAPPED",
        { name := "_UNMAPPED"
          stress_pct := 25 / 100
          budget_pct := 2 / 100
          status := ThesisStatus.ACTIVE
          falsifier := "N/A" })]

/-- The storage state after one scheduled run, successful or not: the
second component of `compute`.  Used to phrase cross-run invariants over
sequences of successive runs. -/
def run_step (eng : RiskEngineState) (matcher : RegexMatcher)
    (storage : Storage) (input : ℕ × List AccountData) : Storage :=
  (compute eng matcher storage input.1 input.2).2

/-- Whether a mapping rule matches a symbol: exact pattern equality, or
the regex test compiles and matches. -/
def rule_matches (matcher : RegexMatcher) (symbol : String)
    (m : MappingRule) : Bool :=
  m.pattern == symbol || matcher m.pattern symbol == some true

/-- A concrete account configuration used by witness runs: threshold 0.12
with the documented default scale map. -/
def cfgW : AccountConfig :=
  { drawdown_x := 12 / 100
    risk_scale := [("NORMAL", 1), ("HALF", 1 / 2), ("MIN", 1 / 5)] }

/-- A concrete position used by witness runs. -/
def posW : Position :=
  { broker := "fid", account_id := "X1", symbol := "AAPL"
    instrument_type := InstrumentType.STOCK
    qty := 100, multiplier := 1, price := 300, mv := 30000 }

/-- The concrete position after mapping resolved its thesis. -/
def posW2 : Position := { posW with thesis := "TECH" }

/-- A concrete account used by witness runs. -/
def accW : AccountData :=
  { broker := "fid", account_id := "X1", equity := 100000, cash := 0
    positions := [posW] }

/-- A concrete loaded engine configuration used by witness runs. -/
def engW : RiskEngineState :=
  { account_config := cfgW
    thesis_configs := [("TECH",
      { name := "TECH", stress_pct := 30 / 100, budget_pct := 10 / 100
        status := ThesisStatus.ACTIVE, falsifier := "N/A" })]
    mappings := [{ pattern := "AAPL", thesis := "TECH", weight := 1 }] }

/-- A concrete regex oracle under which no pattern compiles to a match. -/
def matcherW : RegexMatcher := fun _ _ => some false

/-- The empty database state used by witness runs. -/
def storageW : Storage :=
  { equity_history := [], mode_history := [], thesis_metrics := []
    positions := [] }

/-- The thesis result the witness run computes for its single thesis. -/
def tW : ThesisResult :=
  { name := "TECH", mv := 30000, stress_pct := 30 / 100, budget_pct := 10 / 100
    worst_loss := 9000, budget_dollars := 10000
    utilization := ((9 / 10 : ℚ) : WithTop ℚ)
    action := none, reduce_amount := 0, target_mv := 30000
    status := ThesisStatus.ACTIVE, falsifier := "N/A", positions := [posW2] }

/-- The risk result of the witness run. -/
def rW : RiskResult :=
  { timestamp := 7, equity := 100000, peak := 100000, drawdown := 0
    mode := RiskMode.NORMAL, risk_scale := 1
    thesis_results := [tW], positions := [posW2]
    status := "OK", broker_statuses := [("fid:X1", "OK")], actions := []
    mode_changed := false, old_mode := none }

/-- An account with OK status and zero equity, used to exhibit the
equity-unavailable failure. -/
def accZ : AccountData :=
  { broker := "fid", account_id := "Z", equity := 0, cash := 0
    positions := [] }

/-- The witness mapping table with the same patterns and thesis ids as the
one of `engW` but a different weight. -/
def mappings2W : List MappingRule :=
  [{ pattern := "AAPL", thesis := "TECH", weight := 2 }]

/-- The database state after the witness run. -/
def sW : Storage :=
  { equity_history := [⟨7, 100000, 100000, 0, "NORMAL", 1, "OK"⟩]
    mode_history := []
    thesis_metrics := [⟨7, "TECH", 30000, 30 / 100, 10 / 100, 9000, 10000,
      ((9 / 10 : ℚ) : WithTop ℚ), none, "ACTIVE"⟩]
    positions := [⟨7, "fid", "X1", "AAPL", "STOCK", 100, 1, 300, 30000,
      "USD", "TECH", none⟩] }

/-- C1: mode classification is a pure function of the drawdown and the
configured fraction X: drawdown above -X gives NORMAL, drawdown in
(-2X, -X] gives HALF, drawdown at or below -2X gives MIN (both boundaries
inclusive toward the more severe mode), and the returned risk scale is the
scaleByMode entry of the resulting mode, defaulting to 1 when missing. -/
theorem C1_mode_classification (cfg : AccountConfig) (d : ℚ)
    (hx : 0 ≤ cfg.drawdown_x) :
    (-cfg.drawdown_x < d → (compute_mode cfg d).1 = RiskMode.NORMAL) ∧
    (-(2 * cfg.drawdown_x) < d ∧ d ≤ -cfg.drawdown_x →
      (compute_mode cfg d).1 = RiskMode.HALF) ∧
    (d ≤ -(2 * cfg.drawdown_x) → (compute_mode cfg d).1 = RiskMode.MIN) ∧
    (∀ sc, cfg.risk_scale.lookup (compute_mode cfg d).1.value = some sc →
      (compute_mode cfg d).2 = sc) ∧
    (cfg.risk_scale.lookup (compute_mode cfg d).1.value = none →
      (compute_mode cfg d).2 = 1) := by
  refine ⟨?_, ?_, ?_, ?_, ?_⟩
  · intro h
    simp only [compute_mode]
    split_ifs with h1 h2 <;> first | rfl | (exfalso; simp only [gt_iff_lt] at *; linarith)
  · rintro ⟨h1, h2⟩
    simp only [compute_mode]
    split_ifs with g1 g2 <;> first | rfl | (exfalso; simp only [gt_iff_lt] at *; linarith)
  · intro h
    simp only [compute_mode]
    split_ifs with g1 g2 <;> first | rfl | (exfalso; simp only [gt_iff_lt] at *; linarith)
  · intro sc hsc
    simp only [compute_mode] at hsc ⊢
    split_ifs at hsc ⊢ <;> rw [hsc] <;> rfl
  · intro hnone
    simp only [compute_mode] at hnone ⊢
    split_ifs at hnone ⊢ <;> rw [hnone] <;> rfl

/-- Witness for C1 at the boundary: with X = 0.12 and drawdown exactly
-0.12 the mode is HALF and the scale is the HALF entry 0.5. -/
theorem C1_witness :
    (compute_mode cfgW (-(12 / 100))).1 = RiskMode.HALF ∧
    (compute_mode cfgW (-(12 / 100))).2 = 1 / 2 := by
  have h := C1_mode_classification cfgW (-(12 / 100)) (by norm_num [cfgW])
  have hmode : (compute_mode cfgW (-(12 / 100))).1 = RiskMode.HALF :=
    h.2.1 ⟨by norm_num [cfgW], by norm_num [cfgW]⟩
  refine ⟨hmode, h.2.2.2.1 (1 / 2) ?_⟩
  rw [hmode]
  rfl

/-- C5: resolution returns the thesis and weight of the first rule in
configured order whose pattern matches the symbol exactly or as a
compiled regex; rules whose pattern fails to compile are skipped; with no
matching rule the sentinel pair is returned; and the resolver is a pure
function, so a repeated call returns the identical result. -/
theorem C5_first_match_resolution (matcher : RegexMatcher)
    (rules : List MappingRule) (symbol : String) :
    (map_position_to_thesis matcher rules symbol =
      match rules.find? (rule_matches matcher symbol) with
      | some m => (m.thesis, m.weight)
      | none => ("_UNMAPPED", 1)) ∧
    map_position_to_thesis matcher rules symbol =
      map_position_to_thesis matcher rules symbol := by
  refine ⟨?_, rfl⟩
  induction rules with
  | nil => rfl
  | cons m rest ih =>
    by_cases hp : m.pattern = symbol
    · have hm : rule_matches matcher symbol m = true := by
        simp [rule_matches, hp]
      simp [map_position_to_thesis, hp, List.find?_cons_of_pos _ hm]
    · cases hre : matcher m.pattern symbol with
      | none =>
        have hm : rule_matches matcher symbol m = false := by
          simp [rule_matches, hp, hre]
        simp [map_position_to_thesis, hp, hre, List.find?_cons_of_neg, hm, ih]
      | some b =>
        cases b with
        | true =>
          have hm : rule_matches matcher symbol m = true := by
            simp [rule_matches, hre]
          simp [map_position_to_thesis, hp, hre, List.find?_cons_of_pos _ hm]
        | false =>
          have hm : rule_matches matcher symbol m = false := by
            simp [rule_matches, hp, hre]
          simp [map_position_to_thesis, hp, hre, List.find?_cons_of_neg, hm, ih]

/-- C9: the code accepts a thesis configuration with stress_pct = 0 at load
time without any validation error, and the REDUCE-branch division of
`compute` is then reached with a zero divisor (a ZeroDivisionError in the
source) for a thesis whose dollar budget is zero.  This contradicts the
specified load-time rejection of such configurations. -/
theorem C9_stress_zero_accepted :
    load_thesis_config [("T", { stress_pct := some 0, budget_pct := some 0 })] =
      [("T", { name := "T", stress_pct := 0, budget_pct := 0,
               status := ThesisStatus.ACTIVE, falsifier := "N/A" })] ∧
    evaluate_thesis 100000 1
        { name := "T", stress_pct := 0, budget_pct := 0,
          status := ThesisStatus.ACTIVE, falsifier := "N/A" }
        "T" 1000 [] = Except.error ComputeError.zeroDivision := by
  constructor
  · rfl
  · simp [evaluate_thesis, short_option_warnings, utilization_of]

/-- Field characterization of a successful single-thesis evaluation. -/
theorem evaluate_thesis_ok_spec {E S : ℚ} {c : ThesisConfig} {name : String}
    {mv : ℚ} {ps : List Position} {t : ThesisResult} {logs : List LogEntry}
    (h : evaluate_thesis E S c name mv ps = Except.ok (t, logs)) :
    t.name = name ∧ t.mv = mv ∧ t.positions = ps ∧
    t.stress_pct = c.stress_pct ∧ t.budget_pct = c.budget_pct ∧
    t.status = c.status ∧ t.falsifier = c.falsifier ∧
    t.worst_loss = |mv| * c.stress_pct ∧
    t.budget_dollars = E * c.budget_pct * S ∧
    t.utilization = utilization_of t.worst_loss t.budget_dollars ∧
    (t.status = ThesisStatus.BROKEN →
      t.action = some ThesisAction.EXIT ∧ t.reduce_amount = t.mv ∧
      t.target_mv = 0) ∧
    (t.status ≠ ThesisStatus.BROKEN →
      ((1 : WithTop ℚ) < t.utilization →
        c.stress_pct ≠ 0 ∧
        t.target_mv = t.budget_dollars / c.stress_pct ∧
        t.reduce_amount = t.mv - t.target_mv ∧
        t.action = some (ThesisAction.REDUCE t.reduce_amount)) ∧
      (¬ (1 : WithTop ℚ) < t.utilization →
        t.action = none ∧ t.reduce_amount = 0 ∧ t.target_mv = t.mv)) := by
  simp only [evaluate_thesis] at h
  split_ifs at h with hb hu hs
  · simp only [Except.ok.injEq, Prod.mk.injEq] at h
    obtain ⟨ht, -⟩ := h
    subst ht
    refine ⟨rfl, rfl, rfl, rfl, rfl, rfl, rfl, rfl, rfl, rfl, ?_, ?_⟩
    · intro _; exact ⟨rfl, rfl, rfl⟩
    · intro hnb; exact absurd hb hnb
  · simp only [Except.ok.injEq, Prod.mk.injEq] at h
    obtain ⟨ht, -⟩ := h
    subst ht
    refine ⟨rfl, rfl, rfl, rfl, rfl, rfl, rfl, rfl, rfl, rfl, ?_, ?_⟩
    · intro hbr; exact absurd hbr hb
    · intro _
      refine ⟨fun _ => ⟨hs, rfl, rfl, rfl⟩, fun hnu => absurd hu hnu⟩
  · simp only [Except.ok.injEq, Prod.mk.injEq] at h
    obtain ⟨ht, -⟩ := h
    subst ht
    refine ⟨rfl, rfl, rfl, rfl, rfl, rfl, rfl, rfl, rfl, rfl, ?_, ?_⟩
    · intro hbr; exact absurd hbr hb
    · intro _
      exact ⟨fun hu1 => absurd hu1 hu, fun _ => ⟨rfl, rfl, rfl⟩⟩

/-- A failing single-thesis evaluation only raises the division error. -/
theorem evaluate_thesis_error {E S : ℚ} {c : ThesisConfig} {name : String}
    {mv : ℚ} {ps : List Position} {e : ComputeError}
    (h : evaluate_thesis E S c name mv ps = Except.error e) :
    e = ComputeError.zeroDivision := by
  simp only [evaluate_thesis] at h
  split_ifs at h <;> simp_all

/-- A failing thesis loop only raises the division error. -/
theorem evaluate_all_error {E S : ℚ} {configs : List (String × ThesisConfig)}
    {agg : List (String × ℚ × List Position)} {e : ComputeError}
    (h : evaluate_all E S configs agg = Except.error e) :
    e = ComputeError.zeroDivision := by
  induction agg with
  | nil => simp [evaluate_all] at h
  | cons x rest ih =>
    obtain ⟨name, mv, ps⟩ := x
    simp only [evaluate_all] at h
    split at h
    · rename_i e0 heval
      injection h with h'
      subst h'
      exact evaluate_thesis_error heval
    · rename_i t0 tlogs0 heval
      split at h
      · rename_i e0 hrest
        injection h with h'
        subst h'
        exact ih hrest
      · simp at h

/-- Every thesis result of a successful loop comes from a successful
evaluation of some aggregated thesis. -/
theorem evaluate_all_ok_mem {E S : ℚ} {configs : List (String × ThesisConfig)}
    {agg : List (String × ℚ × List Position)} {results : List ThesisResult}
    {logs : List LogEntry}
    (h : evaluate_all E S configs agg = Except.ok (results, logs)) :
    ∀ t ∈ results, ∃ name mv ps tlogs, (name, mv, ps) ∈ agg ∧
      evaluate_thesis E S (thesis_configs_lookup configs name) name mv ps =
        Except.ok (t, tlogs) := by
  induction agg generalizing results logs with
  | nil =>
    simp only [evaluate_all, Except.ok.injEq, Prod.mk.injEq] at h
    obtain ⟨hr, -⟩ := h
    subst hr
    intro t ht
    exact absurd ht (List.not_mem_nil t)
  | cons x rest ih =>
    obtain ⟨name, mv, ps⟩ := x
    simp only [evaluate_all] at h
    split at h
    · simp at h
    · rename_i t0 tlogs0 heval
      split at h
      · simp at h
      · rename_i ts0 logs0 hrest
        simp only [Except.ok.injEq, Prod.mk.injEq] at h
        obtain ⟨hr, -⟩ := h
        subst hr
        intro t ht
        rcases List.mem_cons.mp ht with h1 | h1
        · subst h1
          exact ⟨name, mv, ps, tlogs0, List.mem_cons_self _ _, heval⟩
        · obtain ⟨n, m, p, tl, hmem, he⟩ := ih hrest t h1
          exact ⟨n, m, p, tl, List.mem_cons_of_mem _ hmem, he⟩

/-- A successful thesis loop maps the aggregated list elementwise: names,
market values and member positions of the results are those of the
aggregation, in the same order. -/
theorem evaluate_all_ok_shape {E S : ℚ} {configs : List (String × ThesisConfig)}
    {agg : List (String × ℚ × List Position)} {results : List ThesisResult}
    {logs : List LogEntry}
    (h : evaluate_all E S configs agg = Except.ok (results, logs)) :
    results.map (fun t => t.name) = agg.map (fun x => x.1) ∧
    results.map (fun t => t.mv) = agg.map (fun x => x.2.1) ∧
    results.map (fun t => t.positions) = agg.map (fun x => x.2.2) := by
  induction agg generalizing results logs with
  | nil =>
    simp only [evaluate_all, Except.ok.injEq, Prod.mk.injEq] at h
    obtain ⟨hr, -⟩ := h
    subst hr
    exact ⟨rfl, rfl, rfl⟩
  | cons x rest ih =>
    obtain ⟨name, mv, ps⟩ := x
    simp only [evaluate_all] at h
    split at h
    · simp at h
    · rename_i t0 tlogs0 heval
      split at h
      · simp at h
      · rename_i ts0 logs0 hrest
        simp only [Except.ok.injEq, Prod.mk.injEq] at h
        obtain ⟨hr, -⟩ := h
        subst hr
        obtain ⟨hn, hm, hp⟩ := ih hrest
        obtain ⟨en, em, ep, -⟩ := evaluate_thesis_ok_spec heval
        refine ⟨?_, ?_, ?_⟩ <;> simp [en, em, ep, hn, hm, hp]

/-- Every aggregated thesis yields a result in a successful loop. -/
theorem evaluate_all_of_mem_agg {E S : ℚ}
    {configs : List (String × ThesisConfig)}
    {agg : List (String × ℚ × List Position)} {results : List ThesisResult}
    {logs : List LogEntry}
    (h : evaluate_all E S configs agg = Except.ok (results, logs)) :
    ∀ x ∈ agg, ∃ t ∈ results, t.name = x.1 ∧ t.positions = x.2.2 := by
  induction agg generalizing results logs with
  | nil => intro x hx; exact absurd hx (List.not_mem_nil x)
  | cons y rest ih =>
    obtain ⟨name, mv, ps⟩ := y
    simp only [evaluate_all] at h
    split at h
    · simp at h
    · rename_i t0 tlogs0 heval
      split at h
      · simp at h
      · rename_i ts0 logs0 hrest
        simp only [Except.ok.injEq, Prod.mk.injEq] at h
        obtain ⟨hr, -⟩ := h
        subst hr
        intro x hx
        rcases List.mem_cons.mp hx with h1 | h1
        · subst h1
          obtain ⟨en, -, ep, -⟩ := evaluate_thesis_ok_spec heval
          exact ⟨t0, List.mem_cons_self _ _, en, ep⟩
        · obtain ⟨t, hmem, hn, hp⟩ := ih hrest x h1
          exact ⟨t, List.mem_cons_of_mem _ hmem, hn, hp⟩

/-- Adding one position preserves the aggregation invariant: each entry's
market value is the sum of its member positions' market values, and each
member position carries the entry's key as its thesis. -/
theorem add_position_inv {acc : List (String × ℚ × List Position)}
    {p : Position}
    (h : ∀ x ∈ acc, x.2.1 = (x.2.2.map (fun q => q.mv)).sum ∧
      ∀ q ∈ x.2.2, q.thesis = x.1) :
    ∀ x ∈ add_position acc p, x.2.1 = (x.2.2.map (fun q => q.mv)).sum ∧
      ∀ q ∈ x.2.2, q.thesis = x.1 := by
  induction acc with
  | nil =>
    intro x hx
    simp only [add_position, List.mem_singleton] at hx
    subst hx
    exact ⟨by simp, by intro q hq; simp only [List.mem_singleton] at hq; subst hq; rfl⟩
  | cons y rest ih =>
    obtain ⟨name, mv, ps⟩ := y
    intro x hx
    simp only [add_position] at hx
    split_ifs at hx with hn
    · rcases List.mem_cons.mp hx with h1 | h1
      · subst h1
        obtain ⟨hsum, hth⟩ := h (name, mv, ps) (List.mem_cons_self _ _)
        refine ⟨?_, ?_⟩
        · simp only at hsum ⊢
          simp [hsum, List.map_append]
        · intro q hq
          rcases List.mem_append.mp hq with h2 | h2
          · exact hth q h2
          · simp only [List.mem_singleton] at h2
            subst h2
            exact hn.symm
      · exact h x (List.mem_cons_of_mem _ h1)
    · rcases List.mem_cons.mp hx with h1 | h1
      · subst h1
        exact h (name, mv, ps) (List.mem_cons_self _ _)
      · exact ih (fun z hz => h z (List.mem_cons_of_mem _ hz)) x h1

/-- The aggregation invariant holds for the aggregated positions. -/
theorem aggregate_positions_inv (l : List Position) :
    ∀ x ∈ aggregate_positions l, x.2.1 = (x.2.2.map (fun q => q.mv)).sum ∧
      ∀ q ∈ x.2.2, q.thesis = x.1 := by
  have main : ∀ (l : List Position) (acc : List (String × ℚ × List Position)),
      (∀ x ∈ acc, x.2.1 = (x.2.2.map (fun q => q.mv)).sum ∧
        ∀ q ∈ x.2.2, q.thesis = x.1) →
      ∀ x ∈ l.foldl add_position acc,
        x.2.1 = (x.2.2.map (fun q => q.mv)).sum ∧ ∀ q ∈ x.2.2, q.thesis = x.1 := by
    intro l
    induction l with
    | nil => intro acc hacc; simpa using hacc
    | cons p rest ih =>
      intro acc hacc
      simpa using ih (add_position acc p) (add_position_inv hacc)
  exact main l [] (by intro x hx; exact absurd hx (List.not_mem_nil x))

/-- Adding one position adds its market value to the total of the
aggregation. -/
theorem add_position_sum (acc : List (String × ℚ × List Position))
    (p : Position) :
    ((add_position acc p).map (fun x => x.2.1)).sum =
      (acc.map (fun x => x.2.1)).sum + p.mv := by
  induction acc with
  | nil => simp [add_position]
  | cons y rest ih =>
    obtain ⟨name, mv, ps⟩ := y
    simp only [add_position]
    split_ifs with hn
    · simp only [List.map_cons, List.sum_cons]
      ring
    · simp only [List.map_cons, List.sum_cons, ih]
      ring

/-- The total market value of the aggregation equals the total of the
position list. -/
theorem aggregate_positions_sum (l : List Position) :
    ((aggregate_positions l).map (fun x => x.2.1)).sum =
      (l.map (fun p => p.mv)).sum := by
  have main : ∀ (l : List Position) (acc : List (String × ℚ × List Position)),
      ((l.foldl add_position acc).map (fun x => x.2.1)).sum =
        (acc.map (fun x => x.2.1)).sum + (l.map (fun p => p.mv)).sum := by
    intro l
    induction l with
    | nil => intro acc; simp
    | cons p rest ih =>
      intro acc
      simp only [List.foldl_cons, List.map_cons, List.sum_cons, ih,
        add_position_sum]
      ring
  simpa using main l []

/-- The keys of the aggregation after adding one position: unchanged when
the position's thesis is already present, otherwise the thesis is
appended at the end. -/
theorem add_position_keys (acc : List (String × ℚ × List Position))
    (p : Position) :
    (add_position acc p).map (fun x => x.1) =
      (if p.thesis ∈ acc.map (fun x => x.1) then acc.map (fun x => x.1)
       else acc.map (fun x => x.1) ++ [p.thesis]) := by
  induction acc with
  | nil => simp [add_position]
  | cons y rest ih =>
    obtain ⟨name, mv, ps⟩ := y
    by_cases hn : name = p.thesis
    · subst hn
      simp [add_position]
    · have hne : ¬ p.thesis = name := fun h => hn h.symm
      simp only [add_position, if_neg hn, List.map_cons, ih, List.mem_cons,
        hne, false_or]
      by_cases hmem : p.thesis ∈ rest.map (fun x => x.1)
      · simp [hmem]
      · simp [hmem]

/-- The keys of the aggregation are distinct. -/
theorem aggregate_positions_keys_nodup (l : List Position) :
    ((aggregate_positions l).map (fun x => x.1)).Nodup := by
  have main : ∀ (l : List Position) (acc : List (String × ℚ × List Position)),
      (acc.map (fun x => x.1)).Nodup →
      ((l.foldl add_position acc).map (fun x => x.1)).Nodup := by
    intro l
    induction l with
    | nil => intro acc hacc; simpa using hacc
    | cons p rest ih =>
      intro acc hacc
      simp only [List.foldl_cons]
      refine ih _ ?_
      rw [add_position_keys]
      split_ifs with hmem
      · exact hacc
      · simp [List.nodup_append, hacc, hmem]
  simpa using main l [] (by simp)

/-- Every position of the input list is stored in the aggregation under
its own thesis key. -/
theorem aggregate_positions_mem (l : List Position) :
    ∀ p ∈ l, ∃ x ∈ aggregate_positions l, p ∈ x.2.2 ∧ x.1 = p.thesis := by
  have hold : ∀ (acc : List (String × ℚ × List Position)) (p q : Position),
      (∃ x ∈ acc, q ∈ x.2.2 ∧ x.1 = q.thesis) →
      ∃ x ∈ add_position acc p, q ∈ x.2.2 ∧ x.1 = q.thesis := by
    intro acc p q h
    induction acc with
    | nil => obtain ⟨x, hx, -⟩ := h; exact absurd hx (List.not_mem_nil x)
    | cons y rest ih =>
      obtain ⟨name, mv, ps⟩ := y
      obtain ⟨x, hx, hq, hth⟩ := h
      simp only [add_position]
      split_ifs with hn
      · rcases List.mem_cons.mp hx with h1 | h1
        · subst h1
          exact ⟨(name, mv + p.mv, ps ++ [p]), List.mem_cons_self _ _,
            List.mem_append_left _ hq, hth⟩
        · exact ⟨x, List.mem_cons_of_mem _ h1, hq, hth⟩
      · rcases List.mem_cons.mp hx with h1 | h1
        · subst h1
          exact ⟨(name, mv, ps), List.mem_cons_self _ _, hq, hth⟩
        · obtain ⟨z, hz, hq2, hth2⟩ := ih ⟨x, h1, hq, hth⟩
          exact ⟨z, List.mem_cons_of_mem _ hz, hq2, hth2⟩
  have hnew : ∀ (acc : List (String × ℚ × List Position)) (p : Position),
      ∃ x ∈ add_position acc p, p ∈ x.2.2 ∧ x.1 = p.thesis := by
    intro acc p
    induction acc with
    | nil =>
      exact ⟨(p.thesis, p.mv, [p]), List.mem_singleton.mpr rfl,
        List.mem_singleton.mpr rfl, rfl⟩
    | cons y rest ih =>
      obtain ⟨name, mv, ps⟩ := y
      simp only [add_position]
      split_ifs with hn
      · exact ⟨(name, mv + p.mv, ps ++ [p]), List.mem_cons_self _ _,
          List.mem_append_right _ (List.mem_singleton.mpr rfl), hn⟩
      · obtain ⟨z, hz, hq, hth⟩ := ih
        exact ⟨z, List.mem_cons_of_mem _ hz, hq, hth⟩
  have keep : ∀ (l : List Position) (acc : List (String × ℚ × List Position))
      (q : Position), (∃ x ∈ acc, q ∈ x.2.2 ∧ x.1 = q.thesis) →
      ∃ x ∈ l.foldl add_position acc, q ∈ x.2.2 ∧ x.1 = q.thesis := by
    intro l
    induction l with
    | nil => intro acc q h; simpa using h
    | cons p rest ih =>
      intro acc q h
      simpa using ih (add_position acc p) q (hold acc p q h)
  have main : ∀ (l : List Position) (acc : List (String × ℚ × List Position)),
      ∀ p ∈ l, ∃ x ∈ l.foldl add_position acc, p ∈ x.2.2 ∧ x.1 = p.thesis := by
    intro l
    induction l with
    | nil => intro acc p hp; exact absurd hp (List.not_mem_nil p)
    | cons p0 rest ih =>
      intro acc p hp
      rcases List.mem_cons.mp hp with h1 | h1
      · subst h1
        simpa using keep rest (add_position acc p) p (hnew acc p)
      · simpa using ih (add_position acc p0) p h1
  exact main l []

/-- Inversion of a successful `compute` run: the positive-equity guard
passed, the persisted mode string parsed, the thesis loop succeeded, and
the returned result and storage are the assembled values. -/
theorem compute_ok_inv {eng : RiskEngineState} {matcher : RegexMatcher}
    {storage : Storage} {ts : ℕ} {accs : List AccountData} {r : RiskResult}
    {s' : Storage}
    (h : compute eng matcher storage ts accs = (Except.ok r, s')) :
    0 < total_ok_equity accs ∧
    ∃ old_mode results thesis_logs,
      parse_old_mode (get_last_mode storage) = Except.ok old_mode ∧
      evaluate_all (total_ok_equity accs) (run_mode eng storage accs).2
        eng.thesis_configs (run_agg eng matcher accs) =
        Except.ok (results, thesis_logs) ∧
      r = { timestamp := ts
            equity := total_ok_equity accs
            peak := run_peak storage accs
            drawdown := run_drawdown storage accs
            mode := (run_mode eng storage accs).1
            risk_scale := (run_mode eng storage accs).2
            thesis_results := sort_by_utilization results
            positions := mapped_positions eng matcher accs
            status := run_status accs
            broker_statuses := broker_statuses_of accs
            actions := mode_change_log old_mode (run_mode eng storage accs).1
              (run_mode eng storage accs).2 ++ thesis_logs
            mode_changed := mode_changed_of old_mode (run_mode eng storage accs).1
            old_mode := old_mode } ∧
      s' = save_results
        (if mode_changed_of old_mode (run_mode eng storage accs).1 then
          save_mode_change storage ts (get_last_mode storage)
            (run_mode eng storage accs).1.value (total_ok_equity accs)
            (run_drawdown storage accs)
        else storage) ts (total_ok_equity accs) (run_peak storage accs)
        (run_drawdown storage accs) (run_mode eng storage accs).1
        (run_mode eng storage accs).2 (run_status accs)
        (sort_by_utilization results) (mapped_positions eng matcher accs) := by
  simp only [compute] at h
  split_ifs at h with hle
  · simp at h
  · refine ⟨not_le.mp hle, ?_⟩
    split at h
    · simp at h
    · rename_i old_mode hparse
      split at h
      · simp at h
      · rename_i results thesis_logs heval
        simp only [Prod.mk.injEq, Except.ok.injEq] at h
        obtain ⟨h1, h2⟩ := h
        exact ⟨old_mode, results, thesis_logs, hparse, heval, h1.symm, h2.symm⟩

/-- C2: in every successful run each thesis result satisfies the metric
equations: mv is the signed sum of the member positions' market values,
worstLoss is the absolute mv times the stress fraction, budgetDollars is
the total equity times the budget fraction times the risk scale, and
utilization is worstLoss over budgetDollars when positive and infinity
otherwise; a thesis with zero budgetDollars gets infinite utilization and,
when not BROKEN, a REDUCE action.  In particular the documented example
with equity 100000, mv 30000, stress 0.30, budget 0.10, scale 1 yields
worstLoss 9000, budgetDollars 10000, utilization 0.9 and a null action. -/
theorem C2_thesis_metrics (eng : RiskEngineState) (matcher : RegexMatcher)
    (storage : Storage) (ts : ℕ) (accs : List AccountData) (r : RiskResult)
    (s' : Storage)
    (h : compute eng matcher storage ts accs = (Except.ok r, s')) :
    (∀ t ∈ r.thesis_results,
      t.mv = (t.positions.map (fun p => p.mv)).sum ∧
      t.worst_loss = |t.mv| * t.stress_pct ∧
      t.budget_dollars = r.equity * t.budget_pct * r.risk_scale ∧
      t.utilization = (if 0 < t.budget_dollars then
        ((t.worst_loss / t.budget_dollars : ℚ) : WithTop ℚ) else ⊤) ∧
      (t.budget_dollars = 0 → t.utilization = ⊤ ∧
        (t.status ≠ ThesisStatus.BROKEN →
          ∃ a, t.action = some (ThesisAction.REDUCE a)))) ∧
    evaluate_thesis 100000 1
      { name := "TECH", stress_pct := 30 / 100, budget_pct := 10 / 100
        status := ThesisStatus.ACTIVE, falsifier := "N/A" } "TECH" 30000 [] =
      Except.ok
        ({ name := "TECH", mv := 30000, stress_pct := 30 / 100
           budget_pct := 10 / 100, worst_loss := 9000, budget_dollars := 10000
           utilization := ((9 / 10 : ℚ) : WithTop ℚ), action := none
           reduce_amount := 0, target_mv := 30000
           status := ThesisStatus.ACTIVE, falsifier := "N/A"
           positions := [] }, []) := by
  obtain ⟨hpos, old_mode, results, thesis_logs, hparse, heval, hr, hs⟩ :=
    compute_ok_inv h
  constructor
  · subst hr
    intro t ht
    simp only at ht ⊢
    have ht2 : t ∈ results := by
      simpa [sort_by_utilization] using ht
    obtain ⟨name, mv, ps, tlogs, hmemagg, hevalt⟩ :=
      evaluate_all_ok_mem heval t ht2
    obtain ⟨en, em, ep, est, ebp, estat, ef, ewl, ebd, eu, hbrok, hnbrok⟩ :=
      evaluate_thesis_ok_spec hevalt
    have hinv := aggregate_positions_inv
      (mapped_positions eng matcher accs) (name, mv, ps) hmemagg
    refine ⟨?_, ?_, ?_, ?_, ?_⟩
    · rw [em, ep]
      exact hinv.1
    · rw [ewl, em, est]
    · rw [ebd, ebp]
    · rw [eu]
      rfl
    · intro hb0
      have hutop : t.utilization = ⊤ := by
        rw [eu, hb0]
        simp [utilization_of]
      refine ⟨hutop, ?_⟩
      intro hnb
      have h1u : (1 : WithTop ℚ) < t.utilization := by
        rw [hutop]
        simp
      obtain ⟨-, -, -, ha⟩ := (hnbrok hnb).1 h1u
      exact ⟨t.reduce_amount, ha⟩
  · simp only [evaluate_thesis, short_option_warnings, utilization_of]
    norm_num
    decide

/-- C3: in every successful run, action resolution follows the strict
priority order: a BROKEN thesis gets EXIT with reduceAmount mv and
targetMv 0 regardless of utilization; otherwise utilization above 1 gives
targetMv budgetDollars over stressPct, reduceAmount mv minus targetMv and
the REDUCE action; otherwise a null action, zero reduceAmount and
targetMv mv. -/
theorem C3_action_resolution (eng : RiskEngineState) (matcher : RegexMatcher)
    (storage : Storage) (ts : ℕ) (accs : List AccountData) (r : RiskResult)
    (s' : Storage)
    (h : compute eng matcher storage ts accs = (Except.ok r, s')) :
    ∀ t ∈ r.thesis_results,
      (t.status = ThesisStatus.BROKEN →
        t.action = some ThesisAction.EXIT ∧ t.reduce_amount = t.mv ∧
        t.target_mv = 0) ∧
      (t.status ≠ ThesisStatus.BROKEN →
        ((1 : WithTop ℚ) < t.utilization →
          t.target_mv = t.budget_dollars / t.stress_pct ∧
          t.reduce_amount = t.mv - t.target_mv ∧
          t.action = some (ThesisAction.REDUCE t.reduce_amount)) ∧
        (¬ (1 : WithTop ℚ) < t.utilization →
          t.action = none ∧ t.reduce_amount = 0 ∧ t.target_mv = t.mv)) := by
  obtain ⟨hpos, old_mode, results, thesis_logs, hparse, heval, hr, hs⟩ :=
    compute_ok_inv h
  subst hr
  intro t ht
  simp only at ht
  have ht2 : t ∈ results := by
    simpa [sort_by_utilization] using ht
  obtain ⟨name, mv, ps, tlogs, hmemagg, hevalt⟩ :=
    evaluate_all_ok_mem heval t ht2
  obtain ⟨en, em, ep, est, ebp, estat, ef, ewl, ebd, eu, hbrok, hnbrok⟩ :=
    evaluate_thesis_ok_spec hevalt
  refine ⟨hbrok, ?_⟩
  intro hnb
  refine ⟨?_, (hnbrok hnb).2⟩
  intro h1u
  obtain ⟨-, htv, hra, ha⟩ := (hnbrok hnb).1 h1u
  exact ⟨by rw [htv, est], hra, ha⟩

/-- C4: `compute` fails with the equity-unavailable error exactly when the
aggregate equity over OK accounts is nonpositive, and on that failure no
result is produced and the storage state is unchanged (no snapshot, mode
change, thesis metric or position row is written). -/
theorem C4_equity_guard (eng : RiskEngineState) (matcher : RegexMatcher)
    (storage : Storage) (ts : ℕ) (accs : List AccountData) :
    ((compute eng matcher storage ts accs).1 =
        Except.error ComputeError.equityUnavailable ↔
      total_ok_equity accs ≤ 0) ∧
    (total_ok_equity accs ≤ 0 →
      compute eng matcher storage ts accs =
        (Except.error ComputeError.equityUnavailable, storage)) := by
  by_cases hle : total_ok_equity accs ≤ 0
  · refine ⟨⟨fun _ => hle, fun _ => ?_⟩, fun _ => ?_⟩ <;>
      simp [compute, hle]
  · refine ⟨⟨fun h1 => ?_, fun h1 => absurd h1 hle⟩, fun h1 => absurd h1 hle⟩
    exfalso
    simp only [compute, if_neg hle] at h1
    split at h1
    · rename_i e hparse
      have : e = ComputeError.invalidModeString := by
        simp only [parse_old_mode] at hparse
        split at hparse
        · simp at hparse
        · split_ifs at hparse
          split at hparse
          · simp at hparse
          · injection hparse with h'
            exact h'.symm
      rw [this] at h1
      simp at h1
    · split at h1
      · rename_i e heval
        have : e = ComputeError.zeroDivision := evaluate_all_error heval
        rw [this] at h1
        simp at h1
      · simp at h1

/-- Appending a row with a nonnegative peak cannot decrease the maximum
peak of an equity history. -/
theorem peak_of_rows_append (rows : List EquitySnapshot) (row : EquitySnapshot)
    (h0 : 0 ≤ row.peak) :
    peak_of_rows rows ≤ peak_of_rows (rows ++ [row]) := by
  cases rows with
  | nil => simpa [peak_of_rows] using h0
  | cons a rs =>
    simp only [peak_of_rows, List.cons_append, List.map_cons, List.map_append,
      List.foldl_append]
    simp only [List.map_cons, List.map_nil, List.foldl_cons, List.foldl_nil]
    exact le_max_left _ _

/-- One run, successful or failed, never decreases the persisted peak. -/
theorem get_peak_step_mono (eng : RiskEngineState) (matcher : RegexMatcher)
    (storage : Storage) (ts : ℕ) (accs : List AccountData) :
    get_peak storage ≤ get_peak (compute eng matcher storage ts accs).2 := by
  simp only [compute]
  split_ifs with hle
  · exact le_rfl
  · split
    · exact le_rfl
    · rename_i old_mode hparse
      split
      · split_ifs <;> exact le_rfl
      · rename_i results thesis_logs heval
        have h0 : (0 : ℚ) ≤ run_peak storage accs :=
          le_trans (le_of_lt (not_le.mp hle)) (le_max_right _ _)
        split_ifs <;>
          exact peak_of_rows_append storage.equity_history _ h0

/-- C6: in every successful run the peak is the maximum of the persisted
peak and the current total equity, the drawdown is the relative shortfall
of equity from that peak and is never positive; and the persisted peak is
monotonically non-decreasing across any sequence of successive runs. -/
theorem C6_peak_monotone (eng : RiskEngineState) (matcher : RegexMatcher) :
    (∀ (storage : Storage) (ts : ℕ) (accs : List AccountData)
        (r : RiskResult) (s' : Storage),
      compute eng matcher storage ts accs = (Except.ok r, s') →
      r.peak = max (get_peak storage) (total_ok_equity accs) ∧
      r.drawdown = (r.equity - r.peak) / r.peak ∧
      r.drawdown ≤ 0 ∧
      get_peak storage ≤ get_peak s') ∧
    (∀ (storage : Storage) (runs : List (ℕ × List AccountData)),
      get_peak storage ≤ get_peak (runs.foldl (run_step eng matcher) storage)) := by
  constructor
  · intro storage ts accs r s' h
    obtain ⟨hpos, old_mode, results, thesis_logs, hparse, heval, hr, hs⟩ :=
      compute_ok_inv h
    have hpk : 0 < run_peak storage accs :=
      lt_of_lt_of_le hpos (le_max_right _ _)
    have hmono : get_peak storage ≤ get_peak s' := by
      have hm := get_peak_step_mono eng matcher storage ts accs
      rw [h] at hm
      exact hm
    subst hr
    refine ⟨rfl, ?_, ?_, hmono⟩
    · show run_drawdown storage accs =
        (total_ok_equity accs - run_peak storage accs) / run_peak storage accs
      simp only [run_drawdown, if_pos hpk]
    · show run_drawdown storage accs ≤ 0
      simp only [run_drawdown, if_pos hpk]
      apply div_nonpos_of_nonpos_of_nonneg
      · exact sub_nonpos.mpr (le_max_right _ _)
      · exact le_of_lt hpk
  · intro storage runs
    induction runs generalizing storage with
    | nil => exact le_rfl
    | cons run rest ih =>
      simp only [List.foldl_cons]
      exact le_trans (get_peak_step_mono eng matcher storage run.1 run.2)
        (ih (run_step eng matcher storage run))

/-- C7: in every successful run, grouping conserves market value: the sum
of mv over the thesis results equals the sum of mv over the mapped
position list; every position belongs to the group of its resolved thesis
id, each group only holds positions resolved to its thesis id, and the
group names are distinct, so each position belongs to exactly one group. -/
theorem C7_mv_conservation (eng : RiskEngineState) (matcher : RegexMatcher)
    (storage : Storage) (ts : ℕ) (accs : List AccountData) (r : RiskResult)
    (s' : Storage)
    (h : compute eng matcher storage ts accs = (Except.ok r, s')) :
    ((r.thesis_results.map (fun t => t.mv)).sum =
      (r.positions.map (fun p => p.mv)).sum) ∧
    (∀ p ∈ r.positions, ∃ t ∈ r.thesis_results,
      t.name = p.thesis ∧ p ∈ t.positions) ∧
    (∀ t ∈ r.thesis_results, ∀ p ∈ t.positions, p.thesis = t.name) ∧
    (r.thesis_results.map (fun t => t.name)).Nodup := by
  obtain ⟨hpos, old_mode, results, thesis_logs, hparse, heval, hr, hs⟩ :=
    compute_ok_inv h
  subst hr
  have hperm : List.Perm (sort_by_utilization results) results :=
    List.perm_insertionSort util_ge results
  obtain ⟨hnames, hmvs, hposs⟩ := evaluate_all_ok_shape heval
  refine ⟨?_, ?_, ?_, ?_⟩
  · show ((sort_by_utilization results).map (fun t => t.mv)).sum =
      ((mapped_positions eng matcher accs).map (fun p => p.mv)).sum
    rw [(hperm.map (fun t => t.mv)).sum_eq, hmvs]
    exact aggregate_positions_sum (mapped_positions eng matcher accs)
  · intro p hp
    obtain ⟨x, hxagg, hpx, hkey⟩ :=
      aggregate_positions_mem (mapped_positions eng matcher accs) p hp
    obtain ⟨t, htres, htn, htp⟩ := evaluate_all_of_mem_agg heval x hxagg
    refine ⟨t, ?_, by rw [htn, hkey], by rw [htp]; exact hpx⟩
    show t ∈ sort_by_utilization results
    exact hperm.mem_iff.mpr htres
  · intro t ht p hp
    have ht2 : t ∈ results := hperm.mem_iff.mp ht
    obtain ⟨name, mv, ps, tlogs, hmemagg, hevalt⟩ :=
      evaluate_all_ok_mem heval t ht2
    obtain ⟨en, em, ep, -⟩ := evaluate_thesis_ok_spec hevalt
    have hinv := aggregate_positions_inv
      (mapped_positions eng matcher accs) (name, mv, ps) hmemagg
    rw [ep] at hp
    rw [en]
    exact hinv.2 p hp
  · show ((sort_by_utilization results).map (fun t => t.name)).Nodup
    refine (hperm.map (fun t => t.name)).nodup_iff.mpr ?_
    rw [hnames]
    exact aggregate_positions_keys_nodup (mapped_positions eng matcher accs)

/-- A list is a sublist of itself with an element inserted in order. -/
theorem sublist_orderedInsert_self {α : Type} (r : α → α → Prop)
    [DecidableRel r] (x : α) (l : List α) :
    List.Sublist l (l.orderedInsert r x) := by
  induction l with
  | nil => simp
  | cons c l ih =>
    rw [List.orderedInsert]
    split_ifs with hxc
    · exact List.sublist_cons_self x (c :: l)
    · exact List.Sublist.cons₂ c ih

/-- Inserting an element related to a member of the list places it before
that member. -/
theorem pair_sublist_orderedInsert {α : Type} (r : α → α → Prop)
    [DecidableRel r] {a b : α} (hab : r a b) :
    ∀ {l : List α}, b ∈ l → List.Sublist [a, b] (l.orderedInsert r a) := by
  intro l hb
  induction l with
  | nil => cases hb
  | cons c l ih =>
    rw [List.orderedInsert]
    split_ifs with hac
    · exact List.Sublist.cons₂ a (List.singleton_sublist.mpr hb)
    · rcases List.mem_cons.mp hb with h1 | h1
      · subst h1
        exact absurd hab hac
      · exact List.Sublist.cons c (ih h1)

/-- Stability of insertion sort: a pair already in the relation keeps its
relative order through the sort. -/
theorem pair_sublist_insertionSort {α : Type} (r : α → α → Prop)
    [DecidableRel r] {a b : α} (hab : r a b) :
    ∀ {l : List α}, List.Sublist [a, b] l →
      List.Sublist [a, b] (l.insertionSort r) := by
  intro l h
  induction l with
  | nil => simp at h
  | cons x xs ih =>
    rw [List.insertionSort]
    cases h with
    | cons _ h' =>
      exact (ih h').trans (sublist_orderedInsert_self r x _)
    | cons₂ _ h' =>
      exact pair_sublist_orderedInsert r hab
        ((List.mem_insertionSort r).mpr (List.singleton_sublist.mp h'))

/-- C8: in every successful run the thesis result list is sorted by
utilization in descending order, and any two results with equal
utilization appear in the order in which their thesis ids were first
encountered in the aggregated position list: the pre-sort result list
produced by the thesis loop over the aggregation is in first-encounter
order, and the sort keeps the relative order of every equal-utilization
pair of it. -/
theorem C8_sorted_descending_stable (eng : RiskEngineState)
    (matcher : RegexMatcher) (storage : Storage) (ts : ℕ)
    (accs : List AccountData) (r : RiskResult) (s' : Storage)
    (results : List ThesisResult) (thesis_logs : List LogEntry)
    (h : compute eng matcher storage ts accs = (Except.ok r, s'))
    (heval : evaluate_all (total_ok_equity accs) (run_mode eng storage accs).2
      eng.thesis_configs (run_agg eng matcher accs) =
      Except.ok (results, thesis_logs)) :
    r.thesis_results.Pairwise (fun a b => b.utilization ≤ a.utilization) ∧
    (∀ a b : ThesisResult, a.utilization = b.utilization →
      List.Sublist [a, b] results →
      List.Sublist [a, b] r.thesis_results) := by
  obtain ⟨hpos, old_mode, results0, logs0, hparse, heval0, hr, hs⟩ :=
    compute_ok_inv h
  rw [heval0] at heval
  injection heval with heval'
  have hres2 : results0 = results := congrArg Prod.fst heval'
  subst hres2
  subst hr
  constructor
  · exact List.sorted_insertionSort util_ge results0
  · intro a b hu hsub
    exact pair_sublist_insertionSort util_ge (hu.ge) hsub

/-- Two rule tables with the same patterns and thesis ids resolve every
symbol to the same thesis id, whatever the weights. -/
theorem map_position_to_thesis_fst_eq (matcher : RegexMatcher) :
    ∀ (m1 m2 : List MappingRule),
      m1.map (fun m => (m.pattern, m.thesis)) =
        m2.map (fun m => (m.pattern, m.thesis)) →
      ∀ s, (map_position_to_thesis matcher m1 s).1 =
        (map_position_to_thesis matcher m2 s).1 := by
  intro m1
  induction m1 with
  | nil =>
    intro m2 hmap s
    cases m2 with
    | nil => rfl
    | cons b l2 => simp at hmap
  | cons a l1 ih =>
    intro m2 hmap s
    cases m2 with
    | nil => simp at hmap
    | cons b l2 =>
      simp only [List.map_cons, List.cons.injEq, Prod.mk.injEq] at hmap
      obtain ⟨⟨hp, ht⟩, hrest⟩ := hmap
      simp only [map_position_to_thesis, hp, ht]
      split_ifs with hps
      · rfl
      · cases matcher b.pattern s with
        | none => exact ih l2 hrest s
        | some bb =>
          cases bb with
          | true => rfl
          | false => exact ih l2 hrest s

/-- C10: the weights of the mapping rules never influence the result: two
rule tables identical except in their weights make `compute` produce the
identical result and storage state on every input (only the thesis
component of the resolver's output is used). -/
theorem C10_weight_noninterference (eng : RiskEngineState)
    (matcher : RegexMatcher) (storage : Storage) (ts : ℕ)
    (accs : List AccountData) (m2 : List MappingRule)
    (hsame : eng.mappings.map (fun m => (m.pattern, m.thesis)) =
      m2.map (fun m => (m.pattern, m.thesis))) :
    compute eng matcher storage ts accs =
      compute { eng with mappings := m2 } matcher storage ts accs := by
  have hfun : (fun p => { p with
        thesis := (map_position_to_thesis matcher eng.mappings p.symbol).1 }) =
      (fun p : Position => { p with
        thesis := (map_position_to_thesis matcher m2 p.symbol).1 }) := by
    funext p
    rw [map_position_to_thesis_fst_eq matcher eng.mappings m2 hsame p.symbol]
  have hmap : map_all_positions matcher eng.mappings (ok_positions accs) =
      map_all_positions matcher m2 (ok_positions accs) := by
    simp only [map_all_positions, hfun]
  simp only [compute, run_mode, run_agg, mapped_positions, hmap]

/-- Concrete evaluation of the witness run: one OK account with equity
100000 and one AAPL position mapped to the TECH thesis. -/
theorem compute_scenarioW :
    compute engW matcherW storageW 7 [accW] = (Except.ok rW, sW) := by
  simp [compute, engW, matcherW, storageW, accW, cfgW, posW, posW2, tW, rW, sW,
    total_ok_equity, ok_positions, run_status, broker_statuses_of, run_mode,
    run_peak, run_drawdown, get_peak, peak_of_rows, get_last_mode,
    parse_old_mode, compute_mode, mode_changed_of, mode_change_log,
    mapped_positions, map_all_positions, map_position_to_thesis, run_agg,
    aggregate_positions, add_position, evaluate_all, evaluate_thesis,
    thesis_configs_lookup, default_thesis_config, short_option_warnings,
    utilization_of, sort_by_utilization, save_results, RiskMode.value,
    ThesisStatus.value, InstrumentType.value]
  norm_num [List.insertionSort, List.orderedInsert]

/-- Concrete evaluation of the witness run's thesis loop. -/
theorem eval_scenarioW :
    evaluate_all (total_ok_equity [accW]) (run_mode engW storageW [accW]).2
      engW.thesis_configs (run_agg engW matcherW [accW]) =
      Except.ok ([tW], []) := by
  simp [engW, matcherW, storageW, accW, cfgW, posW, posW2, tW,
    total_ok_equity, ok_positions, run_mode, run_peak, run_drawdown, get_peak,
    peak_of_rows, compute_mode, mapped_positions, map_all_positions,
    map_position_to_thesis, run_agg, aggregate_positions, add_position,
    evaluate_all, evaluate_thesis, thesis_configs_lookup,
    default_thesis_config, short_option_warnings, utilization_of,
    RiskMode.value]
  norm_num

/-- Witness for C2: applying the theorem to the witness run yields the
metric equations for its single thesis result. -/
theorem C2_witness :
    tW.mv = (tW.positions.map (fun p => p.mv)).sum ∧
    tW.worst_loss = |tW.mv| * tW.stress_pct ∧
    tW.budget_dollars = rW.equity * tW.budget_pct * rW.risk_scale := by
  have h := (C2_thesis_metrics engW matcherW storageW 7 [accW] rW sW
    compute_scenarioW).1 tW (by simp [rW])
  exact ⟨h.1, h.2.1, h.2.2.1⟩

/-- Witness for C3: the witness thesis is ACTIVE with utilization not
above 1, so the theorem yields the null action with zero reduce amount. -/
theorem C3_witness :
    tW.action = none ∧ tW.reduce_amount = 0 ∧ tW.target_mv = tW.mv := by
  have h := C3_action_resolution engW matcherW storageW 7 [accW] rW sW
    compute_scenarioW tW (by simp [rW])
  refine (h.2 (by simp [tW]) ).2 ?_
  norm_num [tW]

/-- Witness for C4: zero equity across all accounts makes the run fail
with the equity-unavailable error and leaves the storage untouched. -/
theorem C4_witness :
    compute engW matcherW storageW 7 [accZ] =
      (Except.error ComputeError.equityUnavailable, storageW) :=
  (C4_equity_guard engW matcherW storageW 7 [accZ]).2
    (by norm_num [total_ok_equity, accZ])

/-- Witness for C6: the witness run's peak, drawdown sign and peak
monotonicity, by applying the theorem to the witness run. -/
theorem C6_witness :
    rW.peak = max (get_peak storageW) (total_ok_equity [accW]) ∧
    rW.drawdown ≤ 0 ∧ get_peak storageW ≤ get_peak sW := by
  have h := (C6_peak_monotone engW matcherW).1 storageW 7 [accW] rW sW
    compute_scenarioW
  exact ⟨h.1, h.2.2.1, h.2.2.2⟩

/-- Witness for C7: market value conservation on the witness run. -/
theorem C7_witness :
    (rW.thesis_results.map (fun t => t.mv)).sum =
      (rW.positions.map (fun p => p.mv)).sum :=
  (C7_mv_conservation engW matcherW storageW 7 [accW] rW sW
    compute_scenarioW).1

/-- Witness for C8: sortedness of the witness run's thesis result list,
by applying the theorem to the witness run and its thesis loop. -/
theorem C8_witness :
    rW.thesis_results.Pairwise (fun a b => b.utilization ≤ a.utilization) :=
  (C8_sorted_descending_stable engW matcherW storageW 7 [accW] rW sW
    [tW] [] compute_scenarioW eval_scenarioW).1

/-- Witness for C10: replacing the witness rule table by one differing
only in its weight gives the identical run outcome. -/
theorem C10_witness :
    compute engW matcherW storageW 7 [accW] =
      compute { engW with mappings := mappings2W } matcherW storageW 7 [accW] :=
  C10_weight_noninterference engW matcherW storageW 7 [accW] mappings2W rfl

end NRG
